import Mathlib

/-!
Verification of the `hal-http-client` library (src/hal-http-client.js).

This file gives a shallow embedding, in Lean, of the response-dispatch and
relation-following engine of the library:

* JS values that matter to the engine are modelled by `Json` (JSON-like data),
  JS objects with string keys by association lists `List (String × _)` whose
  order is the JS insertion order, and JS spread-merge by `spread`.
* The external collaborators that the specification declares out of scope
  (the transport, RFC 6570 URL-template expansion, and JSON
  encoding/decoding) are passed in as function parameters (`Collaborators`).
* Asynchronous parts (the GET promise cache, the unsafe-request queue and the
  `allSettled` join) are modelled as explicit state machines whose events are
  the suspension points of the JS code.

Each definition mirrors one function of the source file; the theorems at the
end settle the specification claims C1 to C10.
-/

/-! ## Characters and strings

`String.splitOn`, `String.toLower` and the string order are re-implemented on
top of the character list of the string, mirroring what the JavaScript
builtins (`String.prototype.split` with a one-character separator,
`String.prototype.toLowerCase` on ASCII keys, and the default UTF-16
code-unit comparator of `Array.prototype.sort`) do on the inputs the library
feeds them. -/

/-- Splits the character list at every occurrence of the separator.
`JS: "a.b".split('.')  ~  [['a'],['b']]`; the empty list yields one empty
group, like `"".split('.')` yields `[""]`. -/
def splitChars (sep : Char) : List Char → List (List Char)
  | [] => [[]]
  | c :: cs =>
    match splitChars sep cs with
    | [] => [[]]
    | g :: gs => if c = sep then [] :: g :: gs else (c :: g) :: gs

/-- JS `s.split(sep)` for a one-character separator. -/
def splitOnChar (sep : Char) (s : String) : List String :=
  (splitChars sep s.data).map String.mk

/-- ASCII lower-casing of one character, as JS `toLowerCase` acts on the
ASCII header names the library handles. -/
def charLower (c : Char) : Char :=
  if 'A' ≤ c ∧ c ≤ 'Z' then Char.ofNat (c.toNat + 32) else c

/-- JS `s.toLowerCase()` on ASCII strings. -/
def strLower (s : String) : String := String.mk (s.data.map charLower)

/-- Lexicographic order on character lists by code point, the comparison the
default JS `Array.prototype.sort` comparator performs on header names. -/
def charListLe : List Char → List Char → Bool
  | [], _ => true
  | _ :: _, [] => false
  | a :: as, b :: bs => if a = b then charListLe as bs else decide (a < b)

/-- String order by code points (JS default sort order). -/
def strLeb (a b : String) : Bool := charListLe a.data b.data

/-- The string order as a relation, for use with `List.insertionSort`. -/
def strLe (a b : String) : Prop := strLeb a b = true

instance : DecidableRel strLe := fun a b => inferInstanceAs (Decidable (strLeb a b = true))

/-! ## JSON-like values and JS truthiness -/

/-- JSON-like JavaScript values.  (JS `undefined` is represented by
`Option Json` with `none` at the few places the engine distinguishes it.) -/
inductive Json where
  | null : Json
  | bool (b : Bool) : Json
  | num (n : Int) : Json
  | str (s : String) : Json
  | arr (elements : List Json) : Json
  | obj (fields : List (String × Json)) : Json

/-- JS truthiness of a value: `null`, `false`, `0` and `""` are falsy, every
array and object is truthy. -/
def jsTruthy : Json → Bool
  | .null => false
  | .bool b => b
  | .num n => decide (n ≠ 0)
  | .str s => decide (s ≠ "")
  | .arr _ => true
  | .obj _ => true

/-- JS truthiness of a possibly-`undefined` value. -/
def jsTruthyOpt : Option Json → Bool
  | none => false
  | some v => jsTruthy v

/-- Own-property lookup on an object node, as used by `path` via
`node.hasOwnProperty(key)` (array index and `length` properties are never
used by the library and are not modelled). -/
def Json.getKey? : Json → String → Option Json
  | .obj fields, key => fields.lookup key
  | _, _ => none

/-- The `while` loop of `path`: a truthy key descends when the current node
is a truthy object owning the key, a falsy key (empty segment or exhausted
path) stops and returns the node, anything else returns the default
(`none` = JS `undefined`). -/
def pathWalk : Json → List String → Option Json
  | node, [] => some node
  | node, key :: rest =>
    if key = "" then some node
    else
      match node.getKey? key with
      | some next => pathWalk next rest
      | none => none

/-- `path( obj, thePath )` of the source: split the path at `'.'` and walk. -/
def path (obj : Json) (thePath : String) : Option Json :=
  pathWalk obj (splitOnChar '.' thePath)

/-! ## Header policy (`createHeaders`, lines 929-938) -/

/-- JS spread-merge `{ ...a, ...b }` of two objects: keys of `a` keep their
position (with the value overridden by `b` where present), new keys of `b`
are appended. -/
def spread (a b : List (String × String)) : List (String × String) :=
  a.map (fun p => match b.lookup p.1 with | some v => (p.1, v) | none => p) ++
    b.filter (fun p => (a.lookup p.1).isNone)

/-- Default headers used with safe http methods. -/
def DEFAULT_SAFE_HEADERS : List (String × String) :=
  [("accept", "application/hal+json, application/json;q=0.8")]

/-- Default headers used with unsafe http methods. -/
def DEFAULT_UNSAFE_HEADERS : List (String × String) :=
  spread DEFAULT_SAFE_HEADERS [("content-type", "application/json")]

/-- Default headers used with the PATCH http method. -/
def DEFAULT_PATCH_HEADERS : List (String × String) :=
  spread DEFAULT_SAFE_HEADERS [("content-type", "application/json-patch+json")]

/-- The `defaultHeaders` selection inside `createHeaders`: `GET` picks the
safe set, `PATCH` the patch set, every other method the unsafe set. -/
def defaultHeadersFor (method : String) : List (String × String) :=
  if method = "GET" then DEFAULT_SAFE_HEADERS
  else if method = "PATCH" then DEFAULT_PATCH_HEADERS
  else DEFAULT_UNSAFE_HEADERS

/-- `createHeaders( method, localHeaders )`; the client-global headers come
from the closure and are passed explicitly here. -/
def createHeaders (globalHeaders : List (String × String)) (method : String)
    (localHeaders : List (String × String)) : List (String × String) :=
  spread (spread (defaultHeadersFor method) globalHeaders) localHeaders

/-! ## GET cache key (`createCacheKey`, lines 893-898) -/

/-- `Object.keys( headers ).sort()`: the keys in JS default sort order. -/
def sortedKeys (headers : List (String × String)) : List String :=
  List.insertionSort strLe (headers.map Prod.fst)

/-- `createCacheKey( url, headers )`: fold the sorted keys into
`url@k1=v1_k2=v2…`.  The boolean accumulator component plays the role of the
`index ? '_' : ''` separator logic of the JS `reduce`. -/
def createCacheKey (url : String) (headers : List (String × String)) : String :=
  ((sortedKeys headers).foldl
    (fun acc key =>
      (acc.1 ++ (if acc.2 then "_" else "") ++ key ++ "=" ++
        (match headers.lookup key with | some v => v | none => "undefined"), true))
    (url ++ "@", false)).1

/-! ## Status values and handler resolution (lines 801-837) -/

/-- A JS status value: a number (HTTP status) or a string (the synthetic
`'norel'` and the sentinel `'xxx'`). -/
inductive StatusV where
  | num (n : Nat) : StatusV
  | str (s : String) : StatusV
  deriving DecidableEq

/-- JS template-literal stringification of a status value. -/
def statusToString : StatusV → String
  | .num n => toString n
  | .str s => s

/-- JS truthiness of a status value. -/
def statusTruthy : StatusV → Bool
  | .num n => decide (n ≠ 0)
  | .str s => decide (s ≠ "")

/-- The candidate key list `statusKeys` of `findBestMatchingStatusHandler`:
just `['norel']` for the virtual status, otherwise exact status, first two
characters plus `x`, first character plus `xx`, and `xxx`.  (For an empty
status string, which the dispatcher never produces, `statusStr[0]` is JS
`undefined` and stringifies to `"undefined"`.) -/
def statusKeysOf (status : StatusV) : List String :=
  if status = .str "norel" then ["norel"]
  else
    let statusStr := statusToString status
    [statusStr, statusStr.take 2 ++ "x",
      (if statusStr = "" then "undefined" else statusStr.take 1) ++ "xx", "xxx"]

/-- JS object assignment `tmp[key] = value` on an association list: override
in place if the key exists, append otherwise. -/
def objSet {α : Type} (m : List (String × α)) (key : String) (value : α) :
    List (String × α) :=
  if m.any (fun p => p.1 == key) then
    m.map (fun p => if p.1 == key then (key, value) else p)
  else m ++ [(key, value)]

/-- `expandHandlers( handlers )`: split every key at `'|'` and bind each part
to the key's handler. -/
def expandHandlers {α : Type} (handlers : List (String × α)) : List (String × α) :=
  handlers.foldl
    (fun tmp kv => (splitOnChar '|' kv.1).foldl (fun t keyPart => objSet t keyPart kv.2) tmp)
    []

/-- One `for` loop of `findBestMatchingStatusHandler`: the first candidate
key present in the map wins. -/
def firstKeyIn {α : Type} (statusKeys : List String) (handlers : List (String × α)) :
    Option α :=
  match statusKeys with
  | [] => none
  | key :: rest =>
    match handlers.lookup key with
    | some h => some h
    | none => firstKeyIn rest handlers

/-- `findBestMatchingStatusHandler( status, handlers, globalHandlers )`:
expand the local map, try every candidate key against it, and only then try
the candidate keys against the (already expanded) global map. -/
def findBestMatchingStatusHandler {α : Type} (status : StatusV)
    (handlers globalHandlers : List (String × α)) : Option α :=
  let localHandlers := expandHandlers handlers
  let statusKeys := statusKeysOf status
  match firstKeyIn statusKeys localHandlers with
  | some h => some h
  | none => firstKeyIn statusKeys globalHandlers

/-! ## External collaborators

The specification places the transport, RFC 6570 template expansion
(`url-template`, an external package) and JSON encoding/decoding
(`JSON.stringify` / `JSON.parse`) out of scope.  They enter the embedding as
plain function parameters. -/

/-- The external functions `follow` and the dispatcher call into.
`parseJson` models the `parseJson` helper of the dispatcher, i.e.
`JSON.parse` with the catch-all that turns a parse failure into `null`. -/
structure Collaborators where
  expand : String → List (String × String) → String
  stringifyJson : Json → String
  parseJson : String → Json

/-! ## Response descriptors -/

/-- A response descriptor as the engine sees it: the fetch-like status and
headers, the `info` payload of the synthetic `'norel'` response
(`relation` and `halRepresentation`), and the eventual value of the
`text()` body thunk (`none` models JS `undefined`). -/
structure RespDescr where
  status : StatusV
  headers : List (String × String)
  info : Option (String × Json)
  text : Option String

/-! ## The relation resolver (`follow`, lines 399-465) -/

/-- The option record of `follow` after its defaults were spread in. -/
structure FollowOptions where
  followAll : Bool
  headers : List (String × String)
  vars : List (String × String)
  method : String
  body : Option Json

/-- The caller-supplied `optionalOptions` object: every field may be absent.
(`fetchInit` carries no information the engine inspects and is omitted.) -/
structure FollowOptsArg where
  followAll : Option Bool := none
  headers : Option (List (String × String)) := none
  vars : Option (List (String × String)) := none
  method : Option String := none
  body : Option Json := none

/-- The `const options = { …defaults, …optionalOptions }` merge at the top of
`follow`: present fields of the argument win over the defaults. -/
def mergeFollowOptions (o : FollowOptsArg) : FollowOptions :=
  { followAll := o.followAll.getD false
    headers := o.headers.getD []
    vars := o.vars.getD []
    method := o.method.getD "GET"
    body := o.body }

/-- `Array.isArray( e ) ? e : [ e ]`. -/
def jsToArray : Json → List Json
  | .arr xs => xs
  | v => [v]

/-- `Array.isArray( e ) ? e[ 0 ] : e` — `none` is the JS `undefined` an
empty array yields. -/
def jsFirst : Json → Option Json
  | .arr xs => xs.head?
  | v => some v

/-- `expandPossibleVars( link, vars )`: a non-templated link contributes its
`href` verbatim, a templated one goes through the external expander.
`none` models the `TypeError` JS raises when the link value is `null` and
its `templated` property is accessed.  (Non-string `href` values are not
modelled; the library never produces them.) -/
def expandPossibleVars (ext : Collaborators) (link : Json)
    (vars : List (String × String)) : Option String :=
  match link with
  | .null => none
  | _ =>
    let href := match link.getKey? "href" with | some (.str s) => s | _ => ""
    if jsTruthyOpt (link.getKey? "templated") then some (ext.expand href vars)
    else some href

/-- Collect a list of possibly-failing href expansions; any failure makes the
whole `links.map( … )` callback throw. -/
def collectHrefs : List (Option String) → Option (List String)
  | [] => some []
  | none :: _ => none
  | some h :: rest => (collectHrefs rest).map (fun hs => h :: hs)

/-- What the promise executor of `follow` decides to do, before any
asynchronous step runs:  resolve synthetically (embedded data or `'norel'`),
issue one request, issue one request per link and join them with
`allSettled`, or throw (only reachable through degenerate link values). -/
inductive FollowOutcome where
  | resolved (d : RespDescr) : FollowOutcome
  | resolvedArr (ds : List RespDescr) : FollowOutcome
  | requested (href : String) (method : String) (body : Option Json) : FollowOutcome
  | requestedAll (hrefs : List String) (method : String) (body : Option Json) : FollowOutcome
  | errored : FollowOutcome

/-- The synthetic descriptor an embedded datum is wrapped into:
`{ status: 200, headers: {}, text: () => Promise.resolve( JSON.stringify( data ) ) }`. -/
def embeddedDescr (ext : Collaborators) (data : Json) : RespDescr :=
  { status := .num 200, headers := [], info := none,
    text := some (ext.stringifyJson data) }

/-- The synthetic `'norel'` descriptor:
`{ status: STATUS_NOREL, info: { halRepresentation, relation }, headers: {},
text: () => Promise.resolve( JSON.stringify( null ) ) }`. -/
def norelDescr (ext : Collaborators) (relation : String) (halRepresentation : Json) :
    RespDescr :=
  { status := .str "norel", headers := [],
    info := some (relation, halRepresentation),
    text := some (ext.stringifyJson .null) }

/-- `follow( halRepresentation, relation, optionalOptions )`, lines 399-465:
embedded data is used directly for GET requests, otherwise the links of the
relation are requested, otherwise the `'norel'` descriptor is resolved. -/
def follow (ext : Collaborators) (halRepresentation : Json) (relation : String)
    (optionalOptions : FollowOptsArg) : FollowOutcome :=
  let options := mergeFollowOptions optionalOptions
  if options.method = "GET" ∧
      jsTruthyOpt (path halRepresentation ("_embedded." ++ relation)) then
    let embedded := (path halRepresentation ("_embedded." ++ relation)).getD .null
    if options.followAll then
      .resolvedArr ((jsToArray embedded).map (embeddedDescr ext))
    else
      .resolved { status := .num 200, headers := [], info := none,
                  text := (jsFirst embedded).map ext.stringifyJson }
  else if jsTruthyOpt (path halRepresentation ("_links." ++ relation)) then
    let linkOrLinks := (path halRepresentation ("_links." ++ relation)).getD .null
    if options.followAll then
      match collectHrefs ((jsToArray linkOrLinks).map
          (fun link => expandPossibleVars ext link options.vars)) with
      | some hrefs => .requestedAll hrefs options.method options.body
      | none => .errored
    else
      match jsFirst linkOrLinks with
      | some link =>
        match expandPossibleVars ext link options.vars with
        | some href => .requested href options.method options.body
        | none => .errored
      | none => .errored
  else
    .resolved (norelDescr ext relation halRepresentation)

/-- A `follow(…)` call as the caller observes it: the outcome together with
the state of the caller's `optionalOptions` object after the call.  `follow`
spreads the options into a fresh object, so the caller's object is returned
unchanged. -/
def followCall (ext : Collaborators) (halRepresentation : Json) (relation : String)
    (optionalOptions : FollowOptsArg) : FollowOutcome × FollowOptsArg :=
  (follow ext halRepresentation relation optionalOptions, optionalOptions)

/-- `followAll( halRepresentation, relation, optionalOptions )`, lines
498-502: `const options = optionalOptions; options.followAll = true;` — the
assignment lands on the very object the caller passed in, which is then
forwarded to `follow`. -/
def followAllCall (ext : Collaborators) (halRepresentation : Json) (relation : String)
    (optionalOptions : FollowOptsArg) : FollowOutcome × FollowOptsArg :=
  let options := { optionalOptions with followAll := some true }
  (follow ext halRepresentation relation options, options)

/-! ## The status dispatcher (`createCallStatusHandler`, lines 704-786) -/

/-- The settled value an `on` dispatch runs on: JS `null`/`undefined`, one
descriptor, or an array of descriptors (a follow-all result). -/
inductive DispatchResponse where
  | nullResponse : DispatchResponse
  | one (d : RespDescr) : DispatchResponse
  | many (ds : List RespDescr) : DispatchResponse

/-- Lines 714-728: `response.status || 'xxx'`, overridden for arrays — empty
arrays dispatch as `200`, homogeneous arrays as the shared status, mixed
arrays as `'xxx'`. -/
def dispatchStatus : DispatchResponse → StatusV
  | .nullResponse => .str "xxx"
  | .one d => if statusTruthy d.status then d.status else .str "xxx"
  | .many ds =>
    match ds with
    | [] => .num 200
    | d :: rest => if rest.all (fun x => x.status == d.status) then d.status else .str "xxx"

/-- Body-to-result step for one body: `result = body ? parseJson( body ) : null`
(an absent or empty body yields `null`). -/
def parseBody (ext : Collaborators) : Option String → Json
  | some body => if body = "" then .null else ext.parseJson body
  | none => .null

/-- The `result` handed to a matched handler: the parsed body, or the list of
parsed bodies for an array response. -/
def dispatchValue (ext : Collaborators) : DispatchResponse → Json ⊕ List Json
  | .nullResponse => .inl .null
  | .one d => .inl (parseBody ext d.text)
  | .many ds => .inr (ds.map (fun d => parseBody ext d.text))

/-- The engine-internal markers the dispatcher mutates onto the response
object (`__unhandledOn`, `__bodyPromise`), together with observation
counters for the side effects the claims speak about: how often the body
text was read and how often an unhandled response was logged. -/
structure OnState where
  unhandledOn : Bool
  bodyCached : Bool
  reads : Nat
  logs : Nat
  deriving DecidableEq

/-- The state of a response no `on` call has touched yet. -/
def freshOnState : OnState := { unhandledOn := false, bodyCached := false, reads := 0, logs := 0 }

/-- What one dispatch step does to the chained promise. -/
inductive DispatchAction (α : Type) where
  | nullResult : DispatchAction α
  | rejected (logged : Bool) : DispatchAction α
  | invoked (handler : α) (result : Json ⊕ List Json) : DispatchAction α

/-- One run of the function returned by `createCallStatusHandler`: null
responses pass through, already-unhandled responses re-reject silently, an
unmatched status logs once and rejects, a matched handler reads the body
(at most once, through the cached `__bodyPromise`) and is invoked with the
parsed result. -/
def onDispatch {α : Type} (ext : Collaborators) (handlers globalHandlers : List (String × α))
    (response : DispatchResponse) (st : OnState) : OnState × DispatchAction α :=
  match response with
  | .nullResponse => (st, .nullResult)
  | _ =>
    if st.unhandledOn then (st, .rejected false)
    else
      match findBestMatchingStatusHandler (dispatchStatus response) handlers globalHandlers with
      | none => ({ st with unhandledOn := true, logs := st.logs + 1 }, .rejected true)
      | some h =>
        let st' := if st.bodyCached then st
          else { st with bodyCached := true, reads := st.reads + 1 }
        (st', .invoked h (dispatchValue ext response))

/-- Attaching a sequence of `.on( handlers )` calls to the same settled
response, observing only the response-state evolution. -/
def attachMany {α : Type} (ext : Collaborators) (globalHandlers : List (String × α))
    (response : DispatchResponse) (maps : List (List (String × α))) (st : OnState) : OnState :=
  maps.foldl (fun s m => (onDispatch ext m globalHandlers response s).1) st

/-! ## The GET promise cache (`get`, lines 178-199)

Promises are identified by the order in which they were created
(`GetState.nextId` numbers them); `fetches` counts the transport calls that
were issued.  `get` either returns the cached pending promise for the cache
key or creates a fresh one; the settle event of a promise removes its cache
entry. -/

structure GetState where
  cache : List (String × Nat)
  nextId : Nat
  fetches : Nat
  deriving DecidableEq

/-- The client's state right after `create(…)`: an empty `getPromiseCache`. -/
def getInit : GetState := { cache := [], nextId := 0, fetches := 0 }

/-- One `get( url, optionalOptions )` call: compute the cache key from the
url and the merged headers, return the cached promise on a hit, otherwise
perform the fetch, store the new promise and return it. -/
def getRequest (globalHeaders : List (String × String)) (st : GetState)
    (url : String) (localHeaders : List (String × String)) : GetState × Nat :=
  match st.cache.lookup (createCacheKey url (createHeaders globalHeaders "GET" localHeaders)) with
  | some promise => (st, promise)
  | none =>
    ({ cache := st.cache ++
         [(createCacheKey url (createHeaders globalHeaders "GET" localHeaders), st.nextId)],
       nextId := st.nextId + 1, fetches := st.fetches + 1 }, st.nextId)

/-- The `removeFromCache` callback that runs when the promise stored under
`cacheKey` settles: `delete getPromiseCache[ cacheKey ]`. -/
def settleGet (st : GetState) (cacheKey : String) : GetState :=
  { st with cache := st.cache.filter (fun p => ¬ p.1 = cacheKey) }

/-! ## The `allSettled` join (lines 850-875)

`promises` lists, per original index, the eventual settlement of each input
promise (`true` = rejected) together with its value.  An event is the arrival
of the settlement of index `i`; `allSettledRun` plays an arbitrary arrival
order.  `outcome` is what the executor's `resolve`/`reject` fixed the joined
promise to — `none` while it is still pending. -/

structure SettleState (α : Type) where
  finished : Nat → Option α
  waitingFor : Nat
  failed : Bool
  outcome : Option (Bool × (Nat → Option α))

/-- The executor state before any input promise settled: `finished` empty,
`waitingFor` the number of input promises, `failed` false. -/
def allSettledInit (α : Type) (n : Nat) : SettleState α :=
  { finished := fun _ => none, waitingFor := n, failed := false, outcome := none }

/-- One `doneCallback` invocation for index `index`: record failure, store
the result at the index of its originating promise, count down, and settle
the joined promise when the countdown reaches zero (rejecting exactly when
some input was rejected). -/
def allSettledArrive {α : Type} (promises : List (Bool × α)) (st : SettleState α)
    (index : Nat) : SettleState α :=
  match promises[index]? with
  | none => st
  | some (rejected, result) =>
    let failed := rejected || st.failed
    let finished := fun j => if j = index then some result else st.finished j
    let waitingFor := st.waitingFor - 1
    { finished := finished, waitingFor := waitingFor, failed := failed,
      outcome := if waitingFor = 0 then some (failed, finished) else st.outcome }

/-- Playing a whole arrival order against `allSettled( promises )`. -/
def allSettledRun {α : Type} (promises : List (Bool × α)) (order : List Nat) :
    SettleState α :=
  order.foldl (allSettledArrive promises) (allSettledInit α promises.length)

/-! ## The unsafe-request sequencer (`unsafeRequest`, lines 590-614)

For a client created with `queueUnsafeRequests: true`.  The state is the
list of unsafe requests in submission order; `continuationPromise` is the
promise of the last submitted request.  A newly submitted request starts
immediately when there is no tail yet or the tail has already settled
(collapsing the microtask delay of `.then` into the submit event), and waits
otherwise; when request `i` settles, the `.then( next, next )` continuation
starts request `i + 1` — the same continuation for fulfilment and
rejection. -/

inductive RStatus where
  | waiting : RStatus
  | running : RStatus
  | settled : RStatus
  deriving DecidableEq

/-- Whether `continuationPromise` poses no obstacle: it does not exist yet,
or the last submitted request has settled. -/
def tailSettled (s : List RStatus) : Bool :=
  match s.getLast? with
  | none => true
  | some st => st == .settled

/-- State after submitting one more unsafe request. -/
def submitNext (s : List RStatus) : List RStatus :=
  s ++ [if tailSettled s then .running else .waiting]

/-- The `.then( next, next )` wake-up: start request `j` if it is waiting. -/
def promoteAt (s : List RStatus) (j : Nat) : List RStatus :=
  if s[j]? = some .waiting then s.set j .running else s

/-- State after the fetch of request `i` settles: mark it settled and wake
its chained successor. -/
def settleNext (s : List RStatus) (i : Nat) : List RStatus :=
  promoteAt (s.set i .settled) (i + 1)

/-- The events of a queueing client: submitting a new unsafe request, or the
settlement (with either outcome `ok`) of a running one.  `settleNext` does
not depend on `ok`: `.then( next, next )` registers the same continuation
for success and failure. -/
inductive QueueStep : List RStatus → List RStatus → Prop
  | submit (s : List RStatus) : QueueStep s (submitNext s)
  | settle (s : List RStatus) (i : Nat) (ok : Bool) (h : s[i]? = some .running) :
      QueueStep s (settleNext s i)

/-- The states a queueing client can reach from its initial empty queue. -/
def QueueReachable (s : List RStatus) : Prop :=
  Relation.ReflTransGen QueueStep [] s

/-- The ordering invariant: whenever a request has started (is running or
settled), every request submitted before it has settled. -/
def QueueInv (s : List RStatus) : Prop :=
  ∀ i j : Nat, i < j → (s[j]? = some .running ∨ s[j]? = some .settled) →
    s[i]? = some .settled

/-- `Array.isArray`. -/
def isArray : Json → Bool
  | .arr _ => true
  | _ => false

/-- A concrete instantiation of the external collaborators, used when a
claim is evaluated on concrete inputs: template expansion that returns the
template unchanged, and JSON encoding/decoding fixed on the `null`
document (`JSON.stringify(null) = "null"`, `JSON.parse("null") = null`). -/
def extSample : Collaborators :=
  { expand := fun template _ => template
    stringifyJson := fun _ => "null"
    parseJson := fun _ => .null }

/-! ## Supporting lemmas -/

/-- `Nat.toDigitsCore` never turns a non-empty accumulator into `[]`. -/
theorem toDigitsCore_ne_nil (b : Nat) :
    ∀ (fuel n : Nat) (acc : List Char), acc ≠ [] → Nat.toDigitsCore b fuel n acc ≠ [] := by
  intro fuel
  induction fuel with
  | zero => intro n acc h; simpa [Nat.toDigitsCore] using h
  | succ f ih =>
    intro n acc h
    simp only [Nat.toDigitsCore]
    split
    · exact List.cons_ne_nil _ _
    · exact ih _ _ (List.cons_ne_nil _ _)

/-- The decimal representation of a natural number is never the empty
string (so the candidate-key derivation from a numeric status never hits
the `undefined` branch). -/
theorem natToString_ne_empty (n : Nat) : toString n ≠ "" := by
  have h : Nat.toDigitsCore 10 (n + 1) n [] ≠ [] := by
    simp only [Nat.toDigitsCore]
    split
    · exact List.cons_ne_nil _ _
    · exact toDigitsCore_ne_nil _ _ _ _ (List.cons_ne_nil _ _)
  intro heq
  exact h (congrArg String.data heq)

/-- The `for` loop of `findBestMatchingStatusHandler` is a first-hit search
over the candidate keys. -/
theorem firstKeyIn_eq_findSome? {α : Type} (keys : List String) (m : List (String × α)) :
    firstKeyIn keys m = keys.findSome? (fun k => m.lookup k) := by
  induction keys with
  | nil => rfl
  | cons k rest ih =>
    simp only [firstKeyIn, List.findSome?_cons]
    cases m.lookup k <;> simp [ih]

/-- `findBestMatchingStatusHandler` is the local first-hit search, falling
back to the global first-hit search. -/
theorem findBest_or {α : Type} (status : StatusV) (loc glob : List (String × α)) :
    findBestMatchingStatusHandler status loc glob
      = (firstKeyIn (statusKeysOf status) (expandHandlers loc)).or
        (firstKeyIn (statusKeysOf status) glob) := by
  unfold findBestMatchingStatusHandler
  cases h : firstKeyIn (statusKeysOf status) (expandHandlers loc) <;> simp [h, Option.or]

/-! ## Claim C1: handler resolution order -/

/-- C1: for a numeric status `S` the candidate keys are exact `S`, the first
two digits plus `x`, the first digit plus `xx`, then `xxx`; resolution tries
the whole candidate list against the pipe-expanded local map before trying
it against the global map; hence a local `xxx` handler wins over a global
`5xx` handler for a 500 response; and for the synthetic status `norel` the
candidate list is just `["norel"]`. -/
theorem claim_C1_handler_resolution (S : Nat) (loc glob : List (String × Nat)) (a b : Nat) :
    statusKeysOf (.num S) =
      [toString S, (toString S).take 2 ++ "x", (toString S).take 1 ++ "xx", "xxx"]
    ∧ (∀ status : StatusV,
        findBestMatchingStatusHandler status loc glob
          = ((statusKeysOf status).findSome? (fun k => (expandHandlers loc).lookup k)).or
            ((statusKeysOf status).findSome? (fun k => glob.lookup k)))
    ∧ statusKeysOf (.str "norel") = ["norel"]
    ∧ findBestMatchingStatusHandler (.num 500) [("xxx", a)] (expandHandlers [("5xx", b)])
        = some a := by
  refine ⟨?_, ?_, rfl, rfl⟩
  · simp [statusKeysOf, statusToString, natToString_ne_empty S]
  · intro status
    rw [findBest_or, firstKeyIn_eq_findSome?, firstKeyIn_eq_findSome?]

/-! ## Claim C5: dispatch status of array responses -/

/-- C5: an empty array dispatches as 200, a non-empty array with one shared
status dispatches as that status, a mixed array dispatches as the sentinel
`xxx` — whose candidate list is four copies of `"xxx"`, so resolution can
only ever return a handler bound at key `"xxx"`, never an exact-code or
class binding such as `"200"` or `"404"`. -/
theorem claim_C5_array_dispatch_status (loc glob : List (String × Nat)) :
    dispatchStatus (.many []) = .num 200
    ∧ (∀ (d : RespDescr) (ds : List RespDescr), (∀ x ∈ ds, x.status = d.status) →
        dispatchStatus (.many (d :: ds)) = d.status)
    ∧ (∀ (d : RespDescr) (ds : List RespDescr), (∃ x ∈ ds, x.status ≠ d.status) →
        dispatchStatus (.many (d :: ds)) = .str "xxx")
    ∧ statusKeysOf (.str "xxx") = ["xxx", "xxx", "xxx", "xxx"]
    ∧ findBestMatchingStatusHandler (.str "xxx") loc glob
        = ((expandHandlers loc).lookup "xxx").or (glob.lookup "xxx") := by
  refine ⟨rfl, ?_, ?_, rfl, ?_⟩
  · intro d ds h
    have : ds.all (fun x => x.status == d.status) = true := by
      simp only [List.all_eq_true, beq_iff_eq]; exact h
    simp [dispatchStatus, this]
  · intro d ds h
    have : ds.all (fun x => x.status == d.status) = false := by
      rcases h with ⟨x, hx, hne⟩
      by_contra hall
      rw [Bool.not_eq_false, List.all_eq_true] at hall
      exact hne (by simpa using hall x hx)
    simp [dispatchStatus, this]
  · have hks : statusKeysOf (.str "xxx") = ["xxx", "xxx", "xxx", "xxx"] := rfl
    have h4 : ∀ m : List (String × Nat),
        firstKeyIn ["xxx", "xxx", "xxx", "xxx"] m = m.lookup "xxx" := by
      intro m; cases hm : m.lookup "xxx" <;> simp [firstKeyIn, hm]
    rw [findBest_or, hks, h4, h4]

/-- C5 witness: a homogeneous pair of 200 descriptors dispatches as 200 and
a mixed 200/404 pair dispatches as `xxx`. -/
theorem claim_C5_witness :
    dispatchStatus (.many [⟨.num 200, [], none, none⟩, ⟨.num 200, [], none, none⟩])
      = .num 200
    ∧ dispatchStatus (.many [⟨.num 200, [], none, none⟩, ⟨.num 404, [], none, none⟩])
      = .str "xxx" :=
  ⟨(claim_C5_array_dispatch_status [] []).2.1 ⟨.num 200, [], none, none⟩
      [⟨.num 200, [], none, none⟩] (by intro x hx; simp at hx; rw [hx]),
    (claim_C5_array_dispatch_status [] []).2.2.1 ⟨.num 200, [], none, none⟩
      [⟨.num 404, [], none, none⟩] ⟨⟨.num 404, [], none, none⟩, by simp, by decide⟩⟩

/-! ## Claim C10: `followAll` mutates the caller's options object -/

/-- C10: `followAll` assigns `followAll = true` on the very object the
caller passed (which it returns alongside the outcome), so reusing that
object in a later plain `follow` call yields follow-all semantics there as
well; `follow` itself spreads the options into a fresh record and returns
the caller's object unchanged. -/
theorem claim_C10_followAll_mutates_options (ext : Collaborators) (rep rep2 : Json)
    (relation relation2 : String) (o : FollowOptsArg) :
    (followAllCall ext rep relation o).2 = { o with followAll := some true }
    ∧ (followCall ext rep2 relation2 o).2 = o
    ∧ (mergeFollowOptions (followAllCall ext rep relation o).2).followAll = true
    ∧ (followCall ext rep2 relation2 (followAllCall ext rep relation o).2).1
        = follow ext rep2 relation2 { o with followAll := some true } :=
  ⟨rfl, rfl, rfl, rfl⟩

/-! ## Claim C9: header defaults and merge order -/

/-- Looking a key up in the override part of a spread: the keys of `a` keep
their positions, with values taken from `b` where `b` binds them. -/
theorem lookup_map_subst (a b : List (String × String)) (k : String) :
    (a.map (fun p => match b.lookup p.1 with | some v => (p.1, v) | none => p)).lookup k
      = match a.lookup k with
        | none => none
        | some w => match b.lookup k with | some v => some v | none => some w := by
  induction a with
  | nil => rfl
  | cons p a ih =>
    by_cases hk : k = p.1
    · subst hk
      cases hb : b.lookup p.1 <;> simp [List.lookup, hb]
    · have hbeq : (k == p.1) = false := by simpa using hk
      cases hb : b.lookup p.1 <;> simp [List.lookup, hb, hbeq, ih]

/-- Looking a key up in the appended part of a spread: only keys absent
from `a` survive the filter. -/
theorem lookup_filter_isNone (a b : List (String × String)) (k : String) :
    (b.filter (fun p => (a.lookup p.1).isNone)).lookup k
      = if (a.lookup k).isNone then b.lookup k else none := by
  induction b with
  | nil => cases h : (a.lookup k).isNone <;> simp [List.lookup, h]
  | cons q b ih =>
    by_cases hk : k = q.1
    · subst hk
      cases hq : (a.lookup q.1).isNone <;> simp [List.lookup, List.filter, hq, ih]
    · have hbeq : (k == q.1) = false := by simpa using hk
      cases hq : (a.lookup q.1).isNone <;>
        simp [List.lookup, List.filter, hq, hbeq, ih]

/-- JS spread is "later wins": a lookup in `{ ...a, ...b }` prefers `b`. -/
theorem lookup_spread (a b : List (String × String)) (k : String) :
    (spread a b).lookup k = (b.lookup k).or (a.lookup k) := by
  unfold spread
  rw [List.lookup_append, lookup_map_subst, lookup_filter_isNone]
  cases ha : a.lookup k <;> cases hb : b.lookup k <;> simp [Option.or]

/-- C9 (amended): `GET` gets the SAFE defaults, `PATCH` the PATCH defaults,
and every other method — including `HEAD` — the UNSAFE defaults; the final
headers are the later-wins merge of the method defaults, then the
client-global headers, then the per-call headers. -/
theorem claim_C9_header_policy (g l : List (String × String)) :
    createHeaders g "GET" l = spread (spread DEFAULT_SAFE_HEADERS g) l
    ∧ createHeaders g "PATCH" l = spread (spread DEFAULT_PATCH_HEADERS g) l
    ∧ (∀ m, m ≠ "GET" → m ≠ "PATCH" →
        createHeaders g m l = spread (spread DEFAULT_UNSAFE_HEADERS g) l)
    ∧ (∀ m k, (createHeaders g m l).lookup k
        = (l.lookup k).or ((g.lookup k).or ((defaultHeadersFor m).lookup k))) := by
  refine ⟨rfl, rfl, ?_, ?_⟩
  · intro m h1 h2
    simp [createHeaders, defaultHeadersFor, h1, h2]
  · intro m k
    simp [createHeaders, lookup_spread]

/-- C9 witness: instantiating the non-GET/non-PATCH case at `HEAD` and the
later-wins lookup at a concrete override. -/
theorem claim_C9_witness :
    createHeaders [] "HEAD" [] = spread (spread DEFAULT_UNSAFE_HEADERS []) []
    ∧ (createHeaders [("accept", "text/plain")] "PUT" [("accept", "x")]).lookup "accept"
        = some "x" :=
  ⟨(claim_C9_header_policy [] []).2.2.1 "HEAD" (by decide) (by decide),
    by rw [(claim_C9_header_policy [("accept", "text/plain")] [("accept", "x")]).2.2.2
      "PUT" "accept"]; rfl⟩

/-- C9 counterexample: the claim says `HEAD` receives the SAFE defaults, but
`createHeaders` only special-cases `GET` and `PATCH`, so a HEAD request gets
the UNSAFE defaults (with `content-type: application/json`). -/
theorem claim_C9_counterexample :
    createHeaders [] "HEAD" [] = DEFAULT_UNSAFE_HEADERS
    ∧ createHeaders [] "HEAD" [] ≠ DEFAULT_SAFE_HEADERS
    ∧ (createHeaders [] "HEAD" []).lookup "content-type" = some "application/json" := by
  refine ⟨by decide, by decide, by decide⟩

/-! ## Claim C3: following an embedded relation -/

/-- C3 (amended): when the dispatch method is GET and `_embedded` holds the
relation with a JS-truthy value, `follow` resolves synthetically — no
request outcome is produced — with status-200 descriptors whose body text is
the stringified embedded JSON; without `followAll` only the first element of
a list value is used, with `followAll` a scalar value is wrapped into a
one-element list and all elements are kept in order. -/
theorem claim_C3_embedded_follow (ext : Collaborators) (rep : Json) (rel : String)
    (o : FollowOptsArg) (e : Json)
    (hm : (mergeFollowOptions o).method = "GET")
    (hp : path rep ("_embedded." ++ rel) = some e)
    (ht : jsTruthy e = true) :
    (follow ext rep rel o =
      if (mergeFollowOptions o).followAll then
        .resolvedArr ((jsToArray e).map (embeddedDescr ext))
      else
        .resolved { status := .num 200, headers := [], info := none,
                    text := (jsFirst e).map ext.stringifyJson })
    ∧ (∀ xs, jsToArray (.arr xs) = xs)
    ∧ (∀ x xs, jsFirst (.arr (x :: xs)) = some x)
    ∧ (∀ v, isArray v = false → jsToArray v = [v] ∧ jsFirst v = some v) := by
  refine ⟨?_, fun xs => rfl, fun x xs => rfl, ?_⟩
  · unfold follow
    rw [hp]
    simp [hm, jsTruthyOpt, ht]
  · intro v hv
    cases v <;> simp_all [isArray, jsToArray, jsFirst]

/-- C3 witness: a single embedded object resolves as one synthetic 200
descriptor; an embedded two-element list under `followAll` resolves as two
synthetic 200 descriptors; a scalar under `followAll` is wrapped. -/
theorem claim_C3_witness :
    follow extSample (.obj [("_embedded", .obj [("address", .obj [])])]) "address" {}
      = .resolved { status := .num 200, headers := [], info := none, text := some "null" }
    ∧ follow extSample (.obj [("_embedded", .obj [("car", .arr [.num 1, .num 2])])]) "car"
        { followAll := some true }
      = .resolvedArr [embeddedDescr extSample (.num 1), embeddedDescr extSample (.num 2)]
    ∧ follow extSample (.obj [("_embedded", .obj [("pet", .str "cat")])]) "pet"
        { followAll := some true }
      = .resolvedArr [embeddedDescr extSample (.str "cat")] :=
  ⟨((claim_C3_embedded_follow extSample (.obj [("_embedded", .obj [("address", .obj [])])])
      "address" {} (.obj []) rfl rfl rfl).1).trans rfl,
    ((claim_C3_embedded_follow extSample (.obj [("_embedded", .obj [("car", .arr [.num 1, .num 2])])])
      "car" { followAll := some true } (.arr [.num 1, .num 2]) rfl rfl rfl).1).trans rfl,
    ((claim_C3_embedded_follow extSample (.obj [("_embedded", .obj [("pet", .str "cat")])])
      "pet" { followAll := some true } (.str "cat") rfl rfl rfl).1).trans rfl⟩

/-- C3 counterexample: the claim as stated quantifies over every
representation whose `_embedded` map contains the relation, but the source
guards the embedded branch with JS truthiness (`path(…) &&`), not with
presence.  A representation embedding the relation with value `null` is
routed past the embedded branch to the `'norel'` resolution instead of a
status-200 synthetic response. -/
theorem claim_C3_counterexample :
    (Json.obj [("_embedded", .obj [("a", .null)])]).getKey? "_embedded"
      = some (.obj [("a", .null)])
    ∧ (Json.obj [("a", .null)]).getKey? "a" = some .null
    ∧ follow extSample (.obj [("_embedded", .obj [("a", .null)])]) "a" {}
        = .resolved (norelDescr extSample "a" (.obj [("_embedded", .obj [("a", .null)])]))
    ∧ (norelDescr extSample "a" (.obj [("_embedded", .obj [("a", .null)])])).status
        = .str "norel"
    ∧ StatusV.str "norel" ≠ StatusV.num 200 :=
  ⟨rfl, rfl, rfl, rfl, by decide⟩

/-! ## Claim C4: missing relation resolves as `'norel'` -/

/-- C4: when the relation is present in neither `_embedded` nor `_links`,
`follow` resolves (rather than rejects) with the synthetic `'norel'`
descriptor carrying the relation and the representation and a `"null"` JSON
body; dispatching it against a local `norel` handler invokes the handler
with result `null`; with no `norel` binding anywhere the dispatch takes the
unhandled path and rejects. -/
theorem claim_C4_norel (ext : Collaborators) (rep : Json) (rel : String)
    (o : FollowOptsArg) (g : List (String × Nat)) (h : Nat)
    (hemb : path rep ("_embedded." ++ rel) = none)
    (hlink : path rep ("_links." ++ rel) = none)
    (hstr : ext.stringifyJson .null = "null")
    (hparse : ext.parseJson "null" = .null) :
    follow ext rep rel o = .resolved (norelDescr ext rel rep)
    ∧ norelDescr ext rel rep
        = { status := .str "norel", headers := [], info := some (rel, rep),
            text := some "null" }
    ∧ onDispatch ext [("norel", h)] g (.one (norelDescr ext rel rep)) freshOnState
        = ({ freshOnState with bodyCached := true, reads := 1 },
           .invoked h (.inl .null))
    ∧ (∀ loc : List (String × Nat), (expandHandlers loc).lookup "norel" = none →
        g.lookup "norel" = none →
        onDispatch ext loc g (.one (norelDescr ext rel rep)) freshOnState
          = ({ freshOnState with unhandledOn := true, logs := 1 }, .rejected true)) := by
  have hdescr : norelDescr ext rel rep
      = { status := .str "norel", headers := [], info := some (rel, rep),
          text := some "null" } := by
    simp [norelDescr, hstr]
  refine ⟨?_, hdescr, ?_, ?_⟩
  · unfold follow
    rw [hemb, hlink]
    simp [jsTruthyOpt]
  · rw [hdescr]
    have hfind : findBestMatchingStatusHandler
        (dispatchStatus (.one ⟨.str "norel", [], some (rel, rep), some "null"⟩))
        [("norel", h)] g = some h := rfl
    simp [onDispatch, hfind, dispatchValue, parseBody, hparse, freshOnState]
  · intro loc hloc hglob
    have hds : dispatchStatus (.one (norelDescr ext rel rep)) = .str "norel" := rfl
    have hkeys : statusKeysOf (.str "norel") = ["norel"] := rfl
    have hfind : findBestMatchingStatusHandler (.str "norel") loc g = none := by
      rw [findBest_or, hkeys]
      simp [firstKeyIn, hloc, hglob]
    simp [onDispatch, hds, hfind, freshOnState]

/-- C4 witness: a representation with neither `_links.foo` nor
`_embedded.foo`, followed at `foo`, resolves to the `'norel'` descriptor,
and `on({norel: h})` invokes `h` with `null`. -/
theorem claim_C4_witness :
    path (.obj [("x", .num 1)]) "_embedded.foo" = none
    ∧ follow extSample (.obj [("x", .num 1)]) "foo" {}
        = .resolved (norelDescr extSample "foo" (.obj [("x", .num 1)]))
    ∧ onDispatch extSample [("norel", 7)] []
        (.one (norelDescr extSample "foo" (.obj [("x", .num 1)]))) freshOnState
        = ({ freshOnState with bodyCached := true, reads := 1 },
           .invoked 7 (.inl .null)) :=
  ⟨rfl,
    (claim_C4_norel extSample (.obj [("x", .num 1)]) "foo" {} [] 7 rfl rfl rfl rfl).1,
    (claim_C4_norel extSample (.obj [("x", .num 1)]) "foo" {} [] 7 rfl rfl rfl rfl).2.2.1⟩

/-! ## Claim C6: follow-all aggregation over linked relations -/

/-- With no input promises there is no settlement event to process: any
arrival is ignored (there is no promise at any index). -/
theorem allSettledArrive_nil {α : Type} (st : SettleState α) (index : Nat) :
    allSettledArrive ([] : List (Bool × α)) st index = st := by
  simp [allSettledArrive]

/-- C6 (the failing input): following the relation `items` of
`{_links: {items: []}}` with `followAll` maps the empty link list onto zero
requests, and the `allSettled` join over zero promises never settles — its
`waitingFor` countdown starts at `0`, `--waitingFor === 0` can never fire,
and the aggregate promise stays pending forever, where the claim (and the
doc comment of `allSettled` itself) promises resolution. -/
theorem claim_C6_allSettled_empty_never_settles :
    follow extSample (.obj [("_links", .obj [("items", .arr [])])]) "items"
      { followAll := some true } = .requestedAll [] "GET" none
    ∧ (allSettledInit Nat 0).waitingFor = 0
    ∧ (∀ order : List Nat, (allSettledRun ([] : List (Bool × Nat)) order).outcome = none) := by
  refine ⟨rfl, rfl, ?_⟩
  intro order
  have h : ∀ st : SettleState Nat,
      order.foldl (allSettledArrive ([] : List (Bool × Nat))) st = st := by
    induction order with
    | nil => intro st; rfl
    | cons i rest ih => intro st; rw [List.foldl_cons, allSettledArrive_nil]; exact ih st
  rw [allSettledRun, h]
  rfl

/-- Adequacy of the `allSettled` model on a non-degenerate input: two
promises, the second rejected, arriving out of order; the join settles only
on the second arrival, rejects because one input was rejected, and stores
every outcome at the index of its originating promise. -/
theorem allSettledRun_pair :
    (allSettledRun [(false, 10), (true, 20)] [1]).outcome = none
    ∧ ((allSettledRun [(false, 10), (true, 20)] [1, 0]).outcome.map Prod.fst) = some true
    ∧ (allSettledRun [(false, 10), (true, 20)] [1, 0]).finished 0 = some 10
    ∧ (allSettledRun [(false, 10), (true, 20)] [1, 0]).finished 1 = some 20 :=
  ⟨rfl, rfl, rfl, rfl⟩

/-! ## Claim C8: repeated `.on` attachment is side-effect idempotent -/

/-- The state invariant the dispatcher maintains on every response object:
the read counter is 0 until the body promise is cached and never exceeds 1,
and the unhandled-log counter is 0 until the unhandled flag is set and never
exceeds 1. -/
def OnStateInv (st : OnState) : Prop :=
  (st.bodyCached = false → st.reads = 0) ∧ st.reads ≤ 1
    ∧ (st.unhandledOn = false → st.logs = 0) ∧ st.logs ≤ 1

/-- One dispatch step preserves the dispatcher's state invariant. -/
theorem onDispatch_inv {α : Type} (ext : Collaborators)
    (m g : List (String × α)) (resp : DispatchResponse) (st : OnState)
    (h : OnStateInv st) : OnStateInv (onDispatch ext m g resp st).1 := by
  obtain ⟨h1, h2, h3, h4⟩ := h
  have key : ∀ found : Option α,
      OnStateInv (if st.unhandledOn then (st, (DispatchAction.rejected false : DispatchAction α))
        else match found with
          | none => ({ st with unhandledOn := true, logs := st.logs + 1 }, .rejected true)
          | some hh =>
            (if st.bodyCached then st
              else { st with bodyCached := true, reads := st.reads + 1 },
              .invoked hh (.inl .null))).1 := by
    intro found
    by_cases hu : st.unhandledOn = true
    · simp only [hu, if_true]
      exact ⟨h1, h2, h3, h4⟩
    · have hu' : st.unhandledOn = false := by simpa using hu
      cases found with
      | none =>
        simp only [hu', Bool.false_eq_true, if_false]
        exact ⟨h1, h2, by simp, by simp [h3 hu']⟩
      | some hh =>
        by_cases hb : st.bodyCached = true
        · simp only [hu', Bool.false_eq_true, if_false, hb, if_true]
          exact ⟨h1, h2, h3, h4⟩
        · have hb' : st.bodyCached = false := by simpa using hb
          simp only [hu', hb', Bool.false_eq_true, if_false]
          exact ⟨by simp, by simp [h1 hb'], fun _ => h3 hu', h4⟩
  cases resp with
  | nullResponse => exact ⟨h1, h2, h3, h4⟩
  | one d =>
    have := key (findBestMatchingStatusHandler (dispatchStatus (.one d)) m g)
    simp only [onDispatch]
    revert this
    cases findBestMatchingStatusHandler (dispatchStatus (.one d)) m g <;>
      by_cases hu : st.unhandledOn = true <;> by_cases hb : st.bodyCached = true <;>
        simp_all
  | many ds =>
    have := key (findBestMatchingStatusHandler (dispatchStatus (.many ds)) m g)
    simp only [onDispatch]
    revert this
    cases findBestMatchingStatusHandler (dispatchStatus (.many ds)) m g <;>
      by_cases hu : st.unhandledOn = true <;> by_cases hb : st.bodyCached = true <;>
        simp_all

/-- Folding any sequence of attachments preserves the invariant. -/
theorem attachMany_inv {α : Type} (ext : Collaborators) (g : List (String × α))
    (resp : DispatchResponse) (maps : List (List (String × α))) (st : OnState)
    (h : OnStateInv st) : OnStateInv (attachMany ext g resp maps st) := by
  induction maps generalizing st with
  | nil => exact h
  | cons m rest ih =>
    exact ih _ (onDispatch_inv ext m g resp st h)

/-- C8: across any sequence of `.on` attachments to the same settled
response, the body text is read at most once and the unhandled message is
logged at most once; and once a response is flagged unhandled, a further
attachment re-rejects immediately, without logging and without touching the
response state. -/
theorem claim_C8_on_idempotent {α : Type} (ext : Collaborators)
    (g : List (String × α)) (resp : DispatchResponse)
    (maps : List (List (String × α))) :
    (attachMany ext g resp maps freshOnState).reads ≤ 1
    ∧ (attachMany ext g resp maps freshOnState).logs ≤ 1
    ∧ (∀ (m : List (String × α)) (st : OnState), resp ≠ .nullResponse →
        st.unhandledOn = true → onDispatch ext m g resp st = (st, .rejected false)) := by
  have hinv := attachMany_inv ext g resp maps freshOnState
    ⟨fun _ => rfl, by simp [freshOnState], fun _ => rfl, by simp [freshOnState]⟩
  refine ⟨hinv.2.1, hinv.2.2.2, ?_⟩
  intro m st hne hu
  cases resp with
  | nullResponse => exact absurd rfl hne
  | one d => simp [onDispatch, hu]
  | many ds => simp [onDispatch, hu]

/-- C8 witness: attaching a matching map and then an empty map to a settled
200 response reads the body once and logs once in total; a response already
flagged unhandled re-rejects without logging. -/
theorem claim_C8_witness :
    (attachMany extSample [] (.one ⟨.num 200, [], none, some "null"⟩)
      [[("200", 1)], []] freshOnState).reads ≤ 1
    ∧ (attachMany extSample [] (.one ⟨.num 200, [], none, some "null"⟩)
      [[("200", 1)], []] freshOnState).logs ≤ 1
    ∧ onDispatch extSample ([] : List (String × Nat)) []
        (.one ⟨.num 200, [], none, some "null"⟩)
        { unhandledOn := true, bodyCached := false, reads := 0, logs := 1 }
      = ({ unhandledOn := true, bodyCached := false, reads := 0, logs := 1 },
         .rejected false) :=
  ⟨(claim_C8_on_idempotent extSample [] (.one ⟨.num 200, [], none, some "null"⟩)
      [[("200", 1)], []]).1,
    (claim_C8_on_idempotent extSample [] (.one ⟨.num 200, [], none, some "null"⟩)
      [[("200", 1)], []]).2.1,
    (claim_C8_on_idempotent extSample [] (.one ⟨.num 200, [], none, some "null"⟩)
      [[("200", 1)], []]).2.2 [] _ (fun hc => DispatchResponse.noConfusion hc) rfl⟩

/-! ## Claim C2: GET request deduplication -/

/-- Transitivity of the code-point order on character lists. -/
theorem charListLe_trans : ∀ a b c : List Char,
    charListLe a b = true → charListLe b c = true → charListLe a c = true := by
  intro a
  induction a with
  | nil => intro b c _ _; rfl
  | cons x as ih =>
    intro b c hab hbc
    cases b with
    | nil => simp [charListLe] at hab
    | cons y bs =>
      cases c with
      | nil => simp [charListLe] at hbc
      | cons z cs =>
        simp only [charListLe] at hab hbc ⊢
        by_cases hxy : x = y
        · subst hxy
          by_cases hyz : x = z
          · subst hyz
            simp only [if_pos rfl] at hab hbc ⊢
            exact ih _ _ (by simpa using hab) (by simpa using hbc)
          · simpa [hyz] using hbc
        · by_cases hyz : y = z
          · subst hyz
            simpa [hxy] using hab
          · have hxyl : x < y := by simpa [hxy] using hab
            have hyzl : y < z := by simpa [hyz] using hbc
            have hxz : x < z := lt_trans hxyl hyzl
            have hne : ¬ x = z := ne_of_lt hxz
            simp [hne, hxz]

/-- Totality of the code-point order on character lists. -/
theorem charListLe_total : ∀ a b : List Char,
    charListLe a b = true ∨ charListLe b a = true := by
  intro a
  induction a with
  | nil => intro b; left; rfl
  | cons x as ih =>
    intro b
    cases b with
    | nil => right; rfl
    | cons y bs =>
      simp only [charListLe]
      by_cases hxy : x = y
      · subst hxy
        simpa using ih bs
      · have hyx : ¬ y = x := fun hc => hxy hc.symm
        rcases lt_or_gt_of_ne hxy with hlt | hgt
        · left; simp [hxy, hlt]
        · right; simp [hyx, hgt]

/-- Antisymmetry of the code-point order on character lists. -/
theorem charListLe_antisymm : ∀ a b : List Char,
    charListLe a b = true → charListLe b a = true → a = b := by
  intro a
  induction a with
  | nil =>
    intro b _ hba
    cases b with
    | nil => rfl
    | cons y bs => simp [charListLe] at hba
  | cons x as ih =>
    intro b hab hba
    cases b with
    | nil => simp [charListLe] at hab
    | cons y bs =>
      simp only [charListLe] at hab hba
      by_cases hxy : x = y
      · subst hxy
        simp only [if_pos rfl] at hab hba
        rw [ih bs (by simpa using hab) (by simpa using hba)]
      · have hyx : ¬ y = x := fun hc => hxy hc.symm
        have h1 : x < y := by simpa [hxy] using hab
        have h2 : y < x := by simpa [hyx] using hba
        exact absurd h1 (lt_asymm h2)

instance : IsTrans String strLe :=
  ⟨fun a b c hab hbc => charListLe_trans a.data b.data c.data hab hbc⟩

instance : IsTotal String strLe :=
  ⟨fun a b => charListLe_total a.data b.data⟩

instance : IsAntisymm String strLe :=
  ⟨fun a b hab hba => congrArg String.mk (charListLe_antisymm a.data b.data hab hba)⟩

/-- A successful lookup result is a member of the association list. -/
theorem mem_of_lookup_some {α : Type} {l : List (String × α)} {k : String} {v : α}
    (h : l.lookup k = some v) : (k, v) ∈ l := by
  induction l with
  | nil => simp [List.lookup] at h
  | cons p rest ih =>
    rw [show p = (p.1, p.2) from rfl] at h ⊢
    rw [List.lookup_cons] at h
    cases hk : (k == p.1) with
    | true =>
      rw [hk] at h
      obtain rfl : p.2 = v := by simpa using h
      have : k = p.1 := by simpa using hk
      subst this
      exact List.mem_cons_self _ _
    | false =>
      rw [hk] at h
      exact List.mem_cons_of_mem _ (ih h)

/-- In an association list without duplicate keys, membership determines the
lookup result. -/
theorem lookup_some_of_mem_nodup {α : Type} {l : List (String × α)} {k : String} {v : α}
    (hmem : (k, v) ∈ l) (hnd : (l.map Prod.fst).Nodup) : l.lookup k = some v := by
  induction l with
  | nil => simp at hmem
  | cons p rest ih =>
    simp only [List.map_cons, List.nodup_cons] at hnd
    rcases List.mem_cons.mp hmem with heq | htail
    · rw [← heq]
      simp [List.lookup]
    · have hk : ¬ k = p.1 := by
        intro hc
        apply hnd.1
        rw [← hc]
        exact List.mem_map.mpr ⟨(k, v), htail, rfl⟩
      rw [show p = (p.1, p.2) from rfl, List.lookup_cons]
      have : (k == p.1) = false := by simpa using hk
      rw [this]
      exact ih htail hnd.2

/-- Lookups cannot distinguish permutations of an association list with
duplicate-free keys. -/
theorem lookup_perm {α : Type} {l₁ l₂ : List (String × α)} (hp : l₁.Perm l₂)
    (hnd : (l₁.map Prod.fst).Nodup) (k : String) : l₁.lookup k = l₂.lookup k := by
  have hnd₂ : (l₂.map Prod.fst).Nodup := ((hp.map Prod.fst).nodup_iff).mp hnd
  cases h1 : l₁.lookup k with
  | some v =>
    exact (lookup_some_of_mem_nodup (hp.mem_iff.mp (mem_of_lookup_some h1)) hnd₂).symm
  | none =>
    cases h2 : l₂.lookup k with
    | none => rfl
    | some v =>
      have : (k, v) ∈ l₁ := hp.mem_iff.mpr (mem_of_lookup_some h2)
      rw [lookup_some_of_mem_nodup this hnd] at h1
      exact absurd h1 (by simp)

/-- `Object.keys(…).sort()` cannot distinguish permutations: sorting is by a
total antisymmetric order, so any two permutations sort to the same list. -/
theorem sortedKeys_perm {l₁ l₂ : List (String × String)} (hp : l₁.Perm l₂) :
    sortedKeys l₁ = sortedKeys l₂ :=
  List.eq_of_perm_of_sorted
    (((List.perm_insertionSort strLe _).trans (hp.map Prod.fst)).trans
      (List.perm_insertionSort strLe _).symm)
    (List.sorted_insertionSort strLe _)
    (List.sorted_insertionSort strLe _)

/-- The cache key is insensitive to the insertion order of the (merged)
header object: permuted headers with duplicate-free keys produce the same
serialized key. -/
theorem createCacheKey_perm (url : String) {h₁ h₂ : List (String × String)}
    (hp : h₁.Perm h₂) (hnd : (h₁.map Prod.fst).Nodup) :
    createCacheKey url h₁ = createCacheKey url h₂ := by
  unfold createCacheKey
  rw [sortedKeys_perm hp]
  have hlk : ∀ k, h₁.lookup k = h₂.lookup k := lookup_perm hp hnd
  have hfun : (fun (acc : String × Bool) key =>
      (acc.1 ++ (if acc.2 then "_" else "") ++ key ++ "=" ++
        (match h₁.lookup key with | some v => v | none => "undefined"), true))
      = (fun (acc : String × Bool) key =>
      (acc.1 ++ (if acc.2 then "_" else "") ++ key ++ "=" ++
        (match h₂.lookup key with | some v => v | none => "undefined"), true)) := by
    funext acc key
    rw [hlk key]
  rw [hfun]

/-- A `get` call whose cache key is present returns the cached promise and
leaves the state untouched. -/
theorem getRequest_hit (g : List (String × String)) (st : GetState) (url : String)
    (h : List (String × String)) (p : Nat)
    (hc : st.cache.lookup (createCacheKey url (createHeaders g "GET" h)) = some p) :
    getRequest g st url h = (st, p) := by
  unfold getRequest
  rw [hc]

/-- A `get` call whose cache key is absent performs the fetch, stores the
fresh promise under the key and returns it. -/
theorem getRequest_miss (g : List (String × String)) (st : GetState) (url : String)
    (h : List (String × String))
    (hc : st.cache.lookup (createCacheKey url (createHeaders g "GET" h)) = none) :
    getRequest g st url h =
      ({ cache := st.cache ++ [(createCacheKey url (createHeaders g "GET" h), st.nextId)],
         nextId := st.nextId + 1, fetches := st.fetches + 1 }, st.nextId) := by
  unfold getRequest
  rw [hc]

/-- C2 (amended): two concurrent `get` calls whose merged header objects are
equal as key-value maps — same keys with the same spelling, in any insertion
order — collide on the cache key: the second call returns the very promise
of the first and issues no fetch; and once that promise settles and its
entry is removed, the same call again returns a distinct, fresh promise and
issues a fresh fetch. -/
theorem claim_C2_get_cache (url : String) (g hA hB : List (String × String))
    (hperm : (createHeaders g "GET" hA).Perm (createHeaders g "GET" hB))
    (hnd : ((createHeaders g "GET" hA).map Prod.fst).Nodup) :
    createCacheKey url (createHeaders g "GET" hA)
      = createCacheKey url (createHeaders g "GET" hB)
    ∧ (∀ st st1 p1, getRequest g st url hA = (st1, p1) →
        getRequest g st1 url hB = (st1, p1))
    ∧ ((getRequest g (getRequest g getInit url hA).1 url hB).2
          = (getRequest g getInit url hA).2
      ∧ (getRequest g (getRequest g getInit url hA).1 url hB).1.fetches = 1
      ∧ (getRequest g (settleGet (getRequest g (getRequest g getInit url hA).1 url hB).1
            (createCacheKey url (createHeaders g "GET" hA))) url hB).2
          ≠ (getRequest g getInit url hA).2
      ∧ (getRequest g (settleGet (getRequest g (getRequest g getInit url hA).1 url hB).1
            (createCacheKey url (createHeaders g "GET" hA))) url hB).1.fetches = 2) := by
  have hkey : createCacheKey url (createHeaders g "GET" hA)
      = createCacheKey url (createHeaders g "GET" hB) :=
    createCacheKey_perm url hperm hnd
  have hsecond : ∀ st st1 p1, getRequest g st url hA = (st1, p1) →
      getRequest g st1 url hB = (st1, p1) := by
    intro st st1 p1 h1
    cases hc : st.cache.lookup (createCacheKey url (createHeaders g "GET" hA)) with
    | some p =>
      rw [getRequest_hit g st url hA p hc] at h1
      injection h1 with h1a h1b
      subst h1a
      subst h1b
      exact getRequest_hit g st url hB p (by rw [← hkey]; exact hc)
    | none =>
      rw [getRequest_miss g st url hA hc] at h1
      injection h1 with h1a h1b
      subst h1a
      subst h1b
      apply getRequest_hit
      rw [← hkey]
      show ((st.cache ++
        [(createCacheKey url (createHeaders g "GET" hA), st.nextId)]).lookup
          (createCacheKey url (createHeaders g "GET" hA))) = some st.nextId
      rw [List.lookup_append, hc]
      simp [List.lookup]
  refine ⟨hkey, hsecond, ?_⟩
  have e1 : getRequest g getInit url hA =
      (⟨[(createCacheKey url (createHeaders g "GET" hA), 0)], 1, 1⟩, 0) :=
    (getRequest_miss g getInit url hA rfl).trans rfl
  have e2 : getRequest g
      (⟨[(createCacheKey url (createHeaders g "GET" hA), 0)], 1, 1⟩ : GetState) url hB =
      (⟨[(createCacheKey url (createHeaders g "GET" hA), 0)], 1, 1⟩, 0) :=
    hsecond _ _ _ e1
  have e4 : settleGet
      (⟨[(createCacheKey url (createHeaders g "GET" hA), 0)], 1, 1⟩ : GetState)
      (createCacheKey url (createHeaders g "GET" hA)) = ⟨[], 1, 1⟩ := by
    simp [settleGet]
  have e5 : getRequest g (⟨[], 1, 1⟩ : GetState) url hB =
      (⟨[(createCacheKey url (createHeaders g "GET" hB), 1)], 2, 2⟩, 1) :=
    (getRequest_miss g (⟨[], 1, 1⟩ : GetState) url hB rfl).trans rfl
  rw [e1]
  simp [e2, e4, e5]

/-- C2 witness: per-call header objects listing the same keys in different
insertion orders merge to permuted header objects, collide on the cache key,
and the second concurrent call returns the first call's promise. -/
theorem claim_C2_witness :
    (createHeaders [] "GET" [("b", "2"), ("a", "1")]).Perm
      (createHeaders [] "GET" [("a", "1"), ("b", "2")])
    ∧ createCacheKey "u" (createHeaders [] "GET" [("b", "2"), ("a", "1")])
      = createCacheKey "u" (createHeaders [] "GET" [("a", "1"), ("b", "2")])
    ∧ (getRequest [] (getRequest [] getInit "u" [("b", "2"), ("a", "1")]).1 "u"
        [("a", "1"), ("b", "2")]).2
      = (getRequest [] getInit "u" [("b", "2"), ("a", "1")]).2 :=
  ⟨by decide,
    (claim_C2_get_cache "u" [] [("b", "2"), ("a", "1")] [("a", "1"), ("b", "2")]
      (by decide) (by decide)).1,
    (claim_C2_get_cache "u" [] [("b", "2"), ("a", "1")] [("a", "1"), ("b", "2")]
      (by decide) (by decide)).2.2.1⟩

/-- C2 counterexample: the claim also demands collision independent of
header-key case.  Per-call headers `{X-Foo: 1}` and `{x-foo: 1}` merge to
header sets that are equal up to lower-casing the keys (and produce the same
wire request, since `doFetch` lower-cases keys), yet `createCacheKey` is
computed before any case normalization: the two concurrent calls miss each
other in the cache, get distinct promises, and two transport calls are
issued. -/
theorem claim_C2_counterexample :
    ((createHeaders [] "GET" [("X-Foo", "1")]).map (fun p => (strLower p.1, p.2))).Perm
      ((createHeaders [] "GET" [("x-foo", "1")]).map (fun p => (strLower p.1, p.2)))
    ∧ (getRequest [] (getRequest [] getInit "u" [("X-Foo", "1")]).1 "u"
        [("x-foo", "1")]).2
      ≠ (getRequest [] getInit "u" [("X-Foo", "1")]).2
    ∧ (getRequest [] (getRequest [] getInit "u" [("X-Foo", "1")]).1 "u"
        [("x-foo", "1")]).1.fetches = 2 := by
  refine ⟨by decide, by decide, by decide⟩

/-! ## Claim C7: unsafe-request serialization -/

/-- Index lookup after appending one element. -/
theorem getElem?_concat {α : Type} (s : List α) (x : α) (k : Nat) :
    (s ++ [x])[k]? = if k < s.length then s[k]?
      else if k = s.length then some x else none := by
  rw [List.getElem?_append]
  by_cases h1 : k < s.length
  · rw [if_pos h1, if_pos h1]
  · rw [if_neg h1, if_neg h1]
    by_cases h2 : k = s.length
    · subst h2
      simp
    · have h3 : k - s.length = (k - s.length - 1) + 1 := by omega
      rw [if_neg h2, h3]
      rfl

/-- If the tail promise has settled and the queue is non-empty, the last
submitted request has settled. -/
theorem last_settled_of_tailSettled {s : List RStatus} (h : tailSettled s = true)
    (hne : s ≠ []) : s[s.length - 1]? = some .settled := by
  have hgl := List.getLast?_eq_getElem? s
  unfold tailSettled at h
  cases hl : s.getLast? with
  | none =>
    exact absurd (List.getLast?_eq_none_iff.mp hl) hne
  | some st =>
    rw [hl] at h hgl
    have : st = .settled := by
      cases st <;> simp_all
    rw [this] at hgl
    exact hgl.symm

/-- The empty queue satisfies the ordering invariant. -/
theorem queueInv_nil : QueueInv [] := by
  intro i j hij hj
  rcases hj with h | h <;> simp at h

/-- Submitting one more unsafe request preserves the ordering invariant:
the new request starts immediately only when the tail — and with it, by the
invariant, every earlier request — has settled. -/
theorem queueInv_submit {s : List RStatus} (h : QueueInv s) :
    QueueInv (submitNext s) := by
  intro i j hij hj
  unfold submitNext at hj ⊢
  rw [getElem?_concat] at hj
  rw [getElem?_concat]
  by_cases hjlen : j < s.length
  · rw [if_pos hjlen] at hj
    have hi : i < s.length := lt_trans hij hjlen
    rw [if_pos hi]
    exact h i j hij hj
  · rw [if_neg hjlen] at hj
    by_cases hjeq : j = s.length
    · rw [if_pos hjeq] at hj
      have hi : i < s.length := by omega
      rw [if_pos hi]
      by_cases hts : tailSettled s = true
      · have hne : s ≠ [] := by
          intro hc
          rw [hc] at hi
          simp at hi
        have hlast : s[s.length - 1]? = some .settled :=
          last_settled_of_tailSettled hts hne
        by_cases hi1 : i = s.length - 1
        · rw [hi1]
          exact hlast
        · have hlt : i < s.length - 1 := by omega
          exact h i (s.length - 1) hlt (Or.inr hlast)
      · have hts' : tailSettled s = false := by simpa using hts
        rw [hts'] at hj
        rcases hj with hj | hj <;> simp at hj
    · rw [if_neg hjeq] at hj
      rcases hj with hj | hj <;> simp at hj

/-- Settling a running request preserves the ordering invariant: the settled
request's chained successor may start, and every earlier request had already
settled. -/
theorem queueInv_settle {s : List RStatus} {i : Nat} (h : QueueInv s)
    (hi : s[i]? = some .running) : QueueInv (settleNext s i) := by
  have hilen : i < s.length := (List.getElem?_eq_some.mp hi).1
  unfold settleNext promoteAt
  by_cases hw : (s.set i RStatus.settled)[i + 1]? = some .waiting
  · rw [if_pos hw]
    have hw' : s[i + 1]? = some .waiting := by
      rw [List.getElem?_set_ne (by omega)] at hw
      exact hw
    have hlen1 : i + 1 < s.length := (List.getElem?_eq_some.mp hw').1
    have hs' : ∀ k, ((s.set i RStatus.settled).set (i + 1) RStatus.running)[k]? =
        if k = i + 1 then some .running
        else if k = i then some .settled else s[k]? := by
      intro k
      by_cases hk1 : k = i + 1
      · subst hk1
        rw [if_pos rfl]
        exact List.getElem?_set_self (by rw [List.length_set]; exact hlen1)
      · rw [if_neg hk1, List.getElem?_set_ne (fun hc => hk1 hc.symm)]
        by_cases hk2 : k = i
        · subst hk2
          rw [if_pos rfl]
          exact List.getElem?_set_self hilen
        · rw [if_neg hk2, List.getElem?_set_ne (fun hc => hk2 hc.symm)]
    intro a b hab hb
    rw [hs' b] at hb
    rw [hs' a]
    by_cases hb1 : b = i + 1
    · by_cases ha : a = i
      · rw [if_neg (by omega), if_pos ha]
      · have ha' : a < i := by omega
        rw [if_neg (by omega), if_neg ha]
        exact h a i ha' (Or.inl hi)
    · by_cases hb2 : b = i
      · have ha' : a < i := by omega
        rw [if_neg (by omega), if_neg (by omega)]
        exact h a i ha' (Or.inl hi)
      · rw [if_neg hb1, if_neg hb2] at hb
        by_cases hbgt : i + 1 < b
        · have hcontra := h (i + 1) b hbgt hb
          rw [hw'] at hcontra
          simp at hcontra
        · have hblt : b < i := by omega
          rw [if_neg (by omega), if_neg (by omega)]
          exact h a b hab hb
  · rw [if_neg hw]
    have hs' : ∀ k, (s.set i RStatus.settled)[k]? =
        if k = i then some .settled else s[k]? := by
      intro k
      by_cases hk : k = i
      · subst hk
        rw [if_pos rfl]
        exact List.getElem?_set_self hilen
      · rw [if_neg hk, List.getElem?_set_ne (fun hc => hk hc.symm)]
    intro a b hab hb
    rw [hs' b] at hb
    rw [hs' a]
    by_cases hb1 : b = i
    · rw [if_neg (by omega)]
      exact h a i (by omega) (Or.inl hi)
    · rw [if_neg hb1] at hb
      by_cases ha : a = i
      · rw [if_pos ha]
      · rw [if_neg ha]
        exact h a b hab hb

/-- C7: on a queueing client, in every reachable state a request that has
started (is running or settled) is preceded only by settled requests — no
later-submitted request ever begins before every earlier one has settled —
at most one request is ever in flight, and the settle transition is enabled
for a running request regardless of its outcome (`.then( next, next )`), so
a failure never blocks the queue. -/
theorem claim_C7_unsafe_queue (s : List RStatus) (hreach : QueueReachable s) :
    QueueInv s
    ∧ (∀ i j : Nat, s[i]? = some .running → s[j]? = some .running → i = j)
    ∧ (∀ (i : Nat) (ok : Bool), s[i]? = some .running → QueueStep s (settleNext s i)) := by
  have hinv : QueueInv s := by
    induction hreach with
    | refl => exact queueInv_nil
    | tail hsteps hstep ih =>
      cases hstep with
      | submit => exact queueInv_submit ih
      | settle i ok h => exact queueInv_settle ih h
  refine ⟨hinv, ?_, fun i ok h => QueueStep.settle s i ok h⟩
  intro i j hi hj
  rcases lt_trichotomy i j with hlt | heq | hgt
  · have hsettled := hinv i j hlt (Or.inl hj)
    rw [hi] at hsettled
    simp at hsettled
  · exact heq
  · have hsettled := hinv j i hgt (Or.inl hi)
    rw [hj] at hsettled
    simp at hsettled

/-- C7 witness: after two synchronous submissions the first request runs and
the second waits; when the first settles the second starts, and the
invariant — instantiated at the concrete reachable state — shows the second
request runs only once the first has settled. -/
theorem claim_C7_witness :
    submitNext (submitNext []) = [RStatus.running, RStatus.waiting]
    ∧ settleNext (submitNext (submitNext [])) 0 = [RStatus.settled, RStatus.running]
    ∧ (settleNext (submitNext (submitNext [])) 0)[0]? = some RStatus.settled := by
  have hreach : QueueReachable (settleNext (submitNext (submitNext [])) 0) :=
    Relation.ReflTransGen.tail
      (Relation.ReflTransGen.tail
        (Relation.ReflTransGen.tail Relation.ReflTransGen.refl (QueueStep.submit []))
        (QueueStep.submit (submitNext [])))
      (QueueStep.settle (submitNext (submitNext [])) 0 false rfl)
  exact ⟨rfl, rfl,
    (claim_C7_unsafe_queue _ hreach).1 0 1 (by omega) (Or.inl rfl)⟩
